import Mathlib

/-!
Verification of the SafetyAgent retrieval-and-answer core
(src/simple_server.py) against its natural-language specification.

Python strings are modelled as lists of characters (`Str`); Python float
arithmetic on relevance scores is modelled exactly with `ℚ` (all scores are
small exact fractions `m / tokenCount`, and all comparisons performed by the
code are order-preserved by this model); Python dicts that serve as records
are modelled as structures; the module-level `knowledge_base` dict is
modelled as an insertion-ordered association list.
-/

namespace SafetyAgent

/-- Characters of a Python `str`, in order. -/
abbrev Str := List Char

/-- The ASCII whitespace characters recognised by Python's `str.split()` /
`str.strip()` (space, tab, newline, carriage return, vertical tab, form feed). -/
def pyIsSpace (c : Char) : Bool :=
  c = ' ' || c = '\t' || c = '\n' || c = '\r' || c = '\x0b' || c = '\x0c'

/-- The punctuation set of the `word.strip('.,!?')` call in
`find_relevant_chunks` (src/simple_server.py line 574). -/
def isPunct (c : Char) : Bool :=
  c = '.' || c = ',' || c = '!' || c = '?'

/-- Python `str.lower()` (per-character lowering). -/
def strLower (s : Str) : Str := s.map Char.toLower

/-- Helper of `pySplit`: accumulates the current word (reversed) in `acc`. -/
def pySplitAux : Str → Str → List Str
  | [], acc => if acc.isEmpty then [] else [acc.reverse]
  | c :: cs, acc =>
    if pyIsSpace c then
      if acc.isEmpty then pySplitAux cs [] else acc.reverse :: pySplitAux cs []
    else pySplitAux cs (c :: acc)

/-- Python `str.split()` with no arguments: split on runs of whitespace,
never producing empty words. -/
def pySplit (s : Str) : List Str := pySplitAux s []

/-- Python `str.strip(chars)`: remove leading and trailing characters
satisfying `p` (both ends). `pyStrip pyIsSpace` is `str.strip()`,
`pyStrip isPunct` is `str.strip('.,!?')`. -/
def pyStrip (p : Char → Bool) (w : Str) : Str :=
  ((w.dropWhile p).reverse.dropWhile p).reverse

/-- Python `str.startswith` on the character-list model. -/
def pyPre : Str → Str → Bool
  | [], _ => true
  | _ :: _, [] => false
  | a :: w, b :: t => a = b && pyPre w t

/-- Python's substring test `w in t` on strings: `w` occurs contiguously in
`t` (the empty string occurs in every string). -/
def pyIn (w : Str) : Str → Bool
  | [] => w.isEmpty
  | t@(_ :: t') => pyPre w t || pyIn w t'

/-- Python's `" ".join(words)`. -/
def joinWords : List Str → Str
  | [] => []
  | [w] => w
  | w :: ws => w ++ ' ' :: joinWords ws

/-- Helper of `natStr`; the fuel argument makes the recursion structural. -/
def natStrAux : Nat → Nat → Str
  | 0, _ => []
  | _ + 1, 0 => []
  | fuel + 1, n + 1 =>
    natStrAux fuel ((n + 1) / 10) ++ [Nat.digitChar ((n + 1) % 10)]

/-- Decimal representation of a natural number, as produced by a Python
f-string such as the one building document and chunk identifiers. -/
def natStr (n : Nat) : Str :=
  if n = 0 then ['0'] else natStrAux (n + 1) n

/-- Document-level metadata dict built in `upload_document` /
`load_safety_manual` (doc_id, filename, category, file_size, text_length). -/
structure DocMeta where
  doc_id : Str
  filename : Str
  category : Str
  file_size : Nat
  text_length : Nat
deriving DecidableEq

/-- A chunk dict: identifier, text, the merged metadata (document metadata
plus chunk_index / word_count / optional title), and the
`relevance_score` key, which is absent (`none`) until a query writes it. -/
structure Chunk where
  id : Str
  text : Str
  meta : DocMeta
  chunk_index : Nat
  word_count : Nat
  title : Option Str := none
  relevance_score : Option ℚ := none
deriving DecidableEq

/-- A `knowledge_base[doc_id]` entry: metadata, chunk list, full text. -/
structure DocEntry where
  meta : DocMeta
  chunks : List Chunk
  full_text : Str
deriving DecidableEq

/-- The module-level `knowledge_base` dict, as an insertion-ordered
association list from document identifier to entry. -/
abbrev KB := List (Str × DocEntry)

/-- The module-level `stats` dict. -/
structure Stats where
  total_documents : Nat
  total_chunks : Nat
  categories : List Str
deriving DecidableEq

/-- The mutable module state: the knowledge base and the stats counters. -/
structure ServerState where
  kb : KB
  stats : Stats
deriving DecidableEq

/-- A source citation dict of a chat response. -/
structure SourceRef where
  filename : Str
  chunk_id : Str
  relevance : ℚ
deriving DecidableEq

/-- The JSON object returned by the chat endpoint. -/
structure ChatResponse where
  response : Str
  confidence : ℚ
  sources : List SourceRef
deriving DecidableEq

/-- One iteration of the chunk_text loop (src/simple_server.py lines
143-157): join the window starting at word index `i`, skip it when blank
after trimming, otherwise append a chunk whose index and identifier count
only emitted chunks. -/
def emitChunk (chunk_size : Nat) (words : List Str) (meta : DocMeta)
    (chunks : List Chunk) (i : Nat) : List Chunk :=
  let chunk_words := (words.drop i).take chunk_size
  let ctext := joinWords chunk_words
  if (pyStrip pyIsSpace ctext).isEmpty then chunks
  else
    chunks ++ [{ id := meta.doc_id ++ ('_' :: 'c' :: 'h' :: 'u' :: 'n' :: 'k' :: '_' :: natStr chunks.length),
                 text := ctext, meta := meta, chunk_index := chunks.length,
                 word_count := chunk_words.length }]

/-- SimpleDocumentProcessor.chunk_text (src/simple_server.py lines
138-159): slide over the whitespace-split words with stride
`chunk_size - chunk_overlap`; the Python `range(0, len(words), stride)`
yields the `⌈len(words) / stride⌉` start indices `0, stride, 2*stride, ...`,
modelled by `List.range'`. -/
def chunk_text (chunk_size chunk_overlap : Nat) (text : Str) (meta : DocMeta) :
    List Chunk :=
  let words := pySplit text
  let stride := chunk_size - chunk_overlap
  (List.range' 0 ((words.length + stride - 1) / stride) stride).foldl
    (emitChunk chunk_size words meta) []

/-- The start indices and joined window texts that `chunk_text` iterates
over, before the blank-window filter. -/
def windowsOf (chunk_size chunk_overlap : Nat) (text : Str) : List Str :=
  let words := pySplit text
  let stride := chunk_size - chunk_overlap
  (List.range' 0 ((words.length + stride - 1) / stride) stride).map
    (fun i => joinWords ((words.drop i).take chunk_size))

/-- Number of windows of `chunk_text` that are blank after trimming. -/
def blankWindowCount (chunk_size chunk_overlap : Nat) (text : Str) : Nat :=
  ((windowsOf chunk_size chunk_overlap text).filter
    (fun w => (pyStrip pyIsSpace w).isEmpty)).length

/-- The `question_words` list of `find_relevant_chunks`:
`[word.strip('.,!?') for word in question.lower().split()]`. -/
def tokensOfQuery (question : Str) : List Str :=
  (pySplit (strLower question)).map (pyStrip isPunct)

/-- The `question_lower.split()` list used by the phrase-bonus test of
`find_relevant_chunks`. -/
def phrasesOfQuery (question : Str) : List Str :=
  pySplit (strLower question)

/-- The `matches` count before the phrase bonus: how many query tokens
occur as substrings of the lowercased chunk text (with multiplicity). -/
def chunkBaseMatches (question_words : List Str) (c : Chunk) : Nat :=
  (question_words.filter (fun w => pyIn w (strLower c.text))).length

/-- The final `matches` value of `find_relevant_chunks` for a chunk: the
base count, plus 2 when the chunk has at least one base match and some
whitespace-delimited segment of the lowercased query occurs verbatim in
the lowercased chunk text. -/
def chunkMatches (question_words phrases : List Str) (c : Chunk) : Nat :=
  let base := chunkBaseMatches question_words c
  if 0 < base then
    if phrases.any (fun p => pyIn p (strLower c.text)) then base + 2 else base
  else base

/-- The per-chunk body of the scoring loop: when the chunk has at least one
match the code assigns `chunk['relevance_score'] = matches / len(question_words)`
on the stored chunk dict; otherwise the chunk is left untouched. -/
def scoreChunk (question_words phrases : List Str) (c : Chunk) : Chunk :=
  if 0 < chunkBaseMatches question_words c then
    { c with
        relevance_score := some ((chunkMatches question_words phrases c : ℚ) / (question_words.length : ℚ)) }
  else c

/-- Effect of one scoring pass on the stored knowledge base: every chunk
dict of every document is the (possibly mutated) chunk after the loop. -/
def rescoreKB (question_words phrases : List Str) (kb : KB) : KB :=
  kb.map (fun p => (p.1, { p.2 with chunks := p.2.chunks.map (scoreChunk question_words phrases) }))

/-- The `relevant_chunks` list collected by the scoring loop, in knowledge
base iteration order: the mutated chunk dicts with at least one match. -/
def candidateChunks (question_words phrases : List Str) (kb : KB) : List Chunk :=
  (kb.map (fun p =>
    ((p.2.chunks.filter (fun c => decide (0 < chunkBaseMatches question_words c))).map
      (scoreChunk question_words phrases)))).flatten

/-- find_relevant_chunks (src/simple_server.py lines 571-593). Returns the
knowledge base after the loop's in-place mutations together with the
candidates sorted stably by descending `relevance_score` (Python's
`list.sort(key=..., reverse=True)` is a stable sort; any stable sort by the
same key, such as insertion sort, produces the identical list) and
truncated to `max_chunks` (the Python default is 5). -/
def find_relevant_chunks (kb : KB) (question : Str) (max_chunks : Nat) :
    KB × List Chunk :=
  let question_words := tokensOfQuery question
  let phrases := phrasesOfQuery question
  let relevant := candidateChunks question_words phrases kb
  let sorted := relevant.insertionSort
    (fun a b => b.relevance_score.getD 0 ≤ a.relevance_score.getD 0)
  (rescoreKB question_words phrases kb, sorted.take max_chunks)

/-- Source citation dict built from a chunk
(`chunk.get('relevance_score', 0.8)` defaults to 0.8). -/
def mkSource (c : Chunk) : SourceRef :=
  ⟨c.meta.filename, c.id, c.relevance_score.getD (4 / 5)⟩

/-- The preamble of the extractive response. -/
def simplePreamble : Str := "Based on the safety manual:\n\n".data

/-- The numbered multi-chunk body of the extractive response
(`f"{i}. {chunk['text'][:300]}...\n\n"` for i = 1, 2, ...). -/
def numberedBlock (cs : List Chunk) : Str :=
  (cs.enum.map (fun ic =>
    natStr (ic.1 + 1) ++ ('.' :: ' ' :: ic.2.text.take 300) ++ "...\n\n".data)).flatten

/-- generate_simple_response (src/simple_server.py lines 651-672). `none`
models the IndexError that `top_chunks[0]` raises on an empty chunk list
(the confidence expression); every caller passes a non-empty list. -/
def generate_simple_response (relevant_chunks : List Chunk) : Option ChatResponse :=
  let top_chunks := relevant_chunks.take 3
  match top_chunks.head? with
  | none => none
  | some c0 =>
    let response_text :=
      if top_chunks.length = 1 then
        simplePreamble ++ c0.text.take 500 ++ "...".data
      else
        simplePreamble ++ numberedBlock top_chunks
    some ⟨response_text,
          min (4 / 5) (max (1 / 2) (c0.relevance_score.getD (4 / 5))),
          top_chunks.map mkSource⟩

/-- generate_ai_response (src/simple_server.py lines 595-649). The OpenAI
call is the external generator: `Except.ok t` is a successful completion
with text `t`, `Except.error e` is any raised error (timeout, transport,
malformed response). The surrounding try/except turns every error into a
`generate_simple_response` fallback; `none` models an error escaping the
fallback itself (impossible for non-empty input). -/
def generate_ai_response (gen : Except Str Str) (relevant_chunks : List Chunk) :
    Option ChatResponse :=
  match gen with
  | .ok t =>
      some ⟨pyStrip pyIsSpace t, 9 / 10, (relevant_chunks.take 3).map mkSource⟩
  | .error _ => generate_simple_response relevant_chunks

/-- The fixed response for an empty or whitespace-only query. -/
def pleaseProvideResponse : ChatResponse :=
  ⟨"Please provide a question.".data, 0, []⟩

/-- The fixed response when the knowledge base dict is empty. -/
def noManualResponse : ChatResponse :=
  ⟨"I don't have access to the safety manual yet. Please restart the server to load the safety manual.".data, 0, []⟩

/-- The fixed "not found" response when no chunk matches. -/
def notFoundResponse : ChatResponse :=
  ⟨"I couldn't find specific information about that topic in the safety manual. Try asking about general safety requirements, PPE, emergency procedures, or incident reporting.".data, 0, []⟩

/-- chat_with_agent (src/simple_server.py lines 530-569). `gen = none`
models an absent OpenAI client, `gen = some g` a configured client whose
call outcome is `g`. Returns the knowledge base after the query (the
scoring loop mutates it) and the JSON response; the unreachable
`Option.getD` defaults stand for the outer exception handler, which no
path below can trigger. -/
def chat_with_agent (kb : KB) (gen : Option (Except Str Str)) (query : Str) :
    KB × ChatResponse :=
  let question := pyStrip pyIsSpace query
  if question.isEmpty then (kb, pleaseProvideResponse)
  else if kb.isEmpty then (kb, noManualResponse)
  else
    let res := find_relevant_chunks kb question 5
    if res.2.isEmpty then (res.1, notFoundResponse)
    else
      match gen with
      | some g => (res.1, (generate_ai_response g res.2).getD ⟨[], 0, []⟩)
      | none => (res.1, (generate_simple_response res.2).getD ⟨[], 0, []⟩)

/-- Python dict assignment `kb[k] = v` on the association-list model:
replace in place if the key is present, else append. -/
def dictInsert (kb : KB) (k : Str) (v : DocEntry) : KB :=
  if kb.any (fun p => p.1 = k) then
    kb.map (fun p => if p.1 = k then (k, v) else p)
  else kb ++ [(k, v)]

/-- Derived stats: fold over the current knowledge-base map, collecting
the distinct categories in first-appearance order. -/
def foldCategories (kb : KB) : List Str :=
  kb.foldl (fun acc p => if p.2.meta.category ∈ acc then acc else acc ++ [p.2.meta.category]) []

/-- Recomputation of the stats dict by folding over the current map. -/
def computeStats (kb : KB) : Stats :=
  ⟨kb.length, (kb.map (fun p => p.2.chunks.length)).sum, foldCategories kb⟩

/-- The state at server start: empty knowledge base, zeroed stats. -/
def initState : ServerState := ⟨[], ⟨0, 0, []⟩⟩

/-- upload_document (src/simple_server.py lines 462-528), success path:
extract text (external), generate `doc_id = f"doc_{len(knowledge_base)}"`,
chunk with the processor parameters 1000/200, store the entry, then bump
the stats counters and append a new category. -/
def upload_document (s : ServerState) (filename text category : Str)
    (file_size : Nat) : ServerState :=
  let doc_id := ('d' :: 'o' :: 'c' :: '_' :: natStr s.kb.length)
  let meta : DocMeta := ⟨doc_id, filename, category, file_size, text.length⟩
  let chunks := chunk_text 1000 200 text meta
  ⟨dictInsert s.kb doc_id ⟨meta, chunks, text⟩,
   ⟨s.stats.total_documents + 1,
    s.stats.total_chunks + chunks.length,
    if category ∈ s.stats.categories then s.stats.categories
    else s.stats.categories ++ [category]⟩⟩

/-- A pre-chunked chunk record of the external safety-manual JSON. -/
structure ManualChunk where
  id : Str
  content : Str
  title : Str
  word_count : Nat
deriving DecidableEq

/-- The external safety-manual JSON payload (metadata and chunk list). -/
structure ManualData where
  source_file : Str
  total_characters : Nat
  chunks : List ManualChunk
  full_text : Str
deriving DecidableEq

/-- load_safety_manual (src/simple_server.py lines 684-763), success path:
ingest the externally pre-chunked manual under the fixed identifier
"safety_manual" and set the stats dict absolutely (1 document, the
manual's chunk count, the single category). `json_size` models
`len(safety_manual_json)` / `os.path.getsize(json_path)`. -/
def load_safety_manual (s : ServerState) (d : ManualData) (json_size : Nat) :
    ServerState :=
  let doc_id := "safety_manual".data
  let meta : DocMeta := ⟨doc_id, d.source_file, "safety_manual".data, json_size,
                         d.total_characters⟩
  let chunks : List Chunk := d.chunks.enum.map (fun ic =>
    { id := ic.2.id, text := ic.2.content, meta := meta, chunk_index := ic.1,
      word_count := ic.2.word_count, title := some ic.2.title })
  ⟨dictInsert s.kb doc_id ⟨meta, chunks, d.full_text⟩,
   ⟨1, chunks.length, ["safety_manual".data]⟩⟩

/-- The token list described by the specification sentence for claim C1:
lowercase, split on whitespace, strip only TRAILING characters of the set
`. , ! ?` from each token, and discard tokens that are empty after
stripping. Written from the spec's words, for comparison with the
source-derived `tokensOfQuery`. -/
def specTokensOfQuery (q : Str) : List Str :=
  ((pySplit (strLower q)).map (fun w => (w.reverse.dropWhile isPunct).reverse)).filter
    (fun w => !w.isEmpty)

/-- Forget every chunk's `relevance_score` field; two knowledge bases with
the same `eraseScores` image differ at most in persisted scores. -/
def eraseScores (kb : KB) : KB :=
  kb.map (fun p =>
    (p.1, { p.2 with chunks := p.2.chunks.map (fun c => { c with relevance_score := none }) }))

/-- Shape of the document identifiers the server itself generates: the
fixed bulk-load key "safety_manual", or `doc_{i}` with `i` below the
current map size. -/
def KeysBounded (kb : KB) : Prop :=
  ∀ p ∈ kb, p.1 = ("safety_manual".data) ∨
    ∃ i, i < kb.length ∧ p.1 = ('d' :: 'o' :: 'c' :: '_' :: natStr i)

/-- States the running server can be in: the empty boot state, the boot
state after the startup bulk load (executed once, before serving), and
anything reachable from those through uploads and chat queries (a query
rewrites the knowledge base through the scoring loop's mutations). -/
inductive Reachable : ServerState → Prop
  | boot : Reachable initState
  | load (d : ManualData) (json_size : Nat) :
      Reachable (load_safety_manual initState d json_size)
  | upload {s : ServerState} (filename text category : Str) (file_size : Nat) :
      Reachable s → Reachable (upload_document s filename text category file_size)
  | chat {s : ServerState} (gen : Option (Except Str Str)) (q : Str) :
      Reachable s → Reachable ⟨(chat_with_agent s.kb gen q).1, s.stats⟩

/-- Concrete document metadata used by the concrete-input theorems. -/
def metaX : DocMeta := ⟨"d".data, "m.txt".data, "general".data, 4, 11⟩

/-- A concrete stored chunk with text "hello world" and no score yet. -/
def chunkHello : Chunk :=
  { id := "d_chunk_0".data, text := "hello world".data, meta := metaX,
    chunk_index := 0, word_count := 2 }

/-- A concrete one-document knowledge base. -/
def kbHello : KB := [("d".data, ⟨metaX, [chunkHello], "hello world".data⟩)]

/-- A concrete pre-chunked manual payload. -/
def manualX : ManualData :=
  ⟨"manual.pdf".data, 9, [⟨"c1".data, "stay safe".data, "intro".data, 2⟩], "stay safe".data⟩

/-- A concrete chunk that already carries a relevance score, as produced
by a ranking pass. -/
def chunkScored : Chunk := { chunkHello with relevance_score := some (3 / 4) }

/-- A concrete stored chunk containing the phrase "hard hats". -/
def chunkHard : Chunk :=
  { id := "d_chunk_1".data, text := "hard hats and safety glasses".data, meta := metaX,
    chunk_index := 1, word_count := 5 }

/-! Lemmas about the string primitives. -/

theorem pyPre_iff (w t : Str) : pyPre w t = true ↔ ∃ r, t = w ++ r := by
  induction w generalizing t with
  | nil => simp [pyPre]
  | cons a w ih =>
    cases t with
    | nil =>
      simp only [pyPre, List.cons_append]
      constructor
      · intro h; exact absurd h (by simp)
      · rintro ⟨r, h⟩; exact absurd h (by simp)
    | cons b t =>
      simp only [pyPre, Bool.and_eq_true, decide_eq_true_eq, ih, List.cons_append,
        List.cons.injEq]
      constructor
      · rintro ⟨rfl, r, rfl⟩; exact ⟨r, rfl, rfl⟩
      · rintro ⟨r, rfl, rfl⟩; exact ⟨rfl, r, rfl⟩

theorem pyIn_iff (w t : Str) : pyIn w t = true ↔ ∃ x y, t = x ++ w ++ y := by
  induction t with
  | nil =>
    simp only [pyIn, List.isEmpty_iff]
    constructor
    · rintro rfl; exact ⟨[], [], rfl⟩
    · rintro ⟨x, y, h⟩
      rcases List.append_eq_nil.mp (List.append_eq_nil.mp h.symm).1 with ⟨_, h2⟩
      exact h2
  | cons b t ih =>
    simp only [pyIn, Bool.or_eq_true, pyPre_iff, ih]
    constructor
    · rintro (⟨r, h⟩ | ⟨x, y, rfl⟩)
      · exact ⟨[], r, by simpa using h⟩
      · exact ⟨b :: x, y, rfl⟩
    · rintro ⟨x, y, h⟩
      cases x with
      | nil =>
        left
        exact ⟨y, by simpa using h⟩
      | cons c x =>
        right
        rw [List.cons_append, List.cons_append, List.cons.injEq] at h
        exact ⟨x, y, h.2⟩

theorem pyIn_nil (t : Str) : pyIn [] t = true :=
  (pyIn_iff [] t).mpr ⟨[], t, rfl⟩

theorem pyIn_trans {a b c : Str} (h1 : pyIn a b = true) (h2 : pyIn b c = true) :
    pyIn a c = true := by
  rw [pyIn_iff] at h1 h2 ⊢
  obtain ⟨x, y, rfl⟩ := h1
  obtain ⟨u, v, rfl⟩ := h2
  exact ⟨u ++ x, y ++ v, by simp⟩

theorem pyStrip_occurs (p : Char → Bool) (w : Str) :
    ∃ x y, w = x ++ pyStrip p w ++ y := by
  refine ⟨w.takeWhile p, ((w.dropWhile p).reverse.takeWhile p).reverse, ?_⟩
  conv_lhs => rw [← List.takeWhile_append_dropWhile p w]
  rw [List.append_assoc]
  congr 1
  conv_lhs => rw [← List.reverse_reverse (List.dropWhile p w),
    ← List.takeWhile_append_dropWhile p (List.dropWhile p w).reverse]
  rw [List.reverse_append]
  rfl

theorem pyIn_pyStrip {w t : Str} (p : Char → Bool) (h : pyIn w t = true) :
    pyIn (pyStrip p w) t = true := by
  refine pyIn_trans ?_ h
  obtain ⟨x, y, hxy⟩ := pyStrip_occurs p w
  exact (pyIn_iff _ _).mpr ⟨x, y, hxy⟩

theorem pyStrip_eq_nil_iff (p : Char → Bool) (w : Str) :
    pyStrip p w = [] ↔ ∀ c ∈ w, p c = true := by
  constructor
  · intro h c hc
    unfold pyStrip at h
    rw [List.reverse_eq_nil_iff, List.dropWhile_eq_nil_iff] at h
    have hdw : ∀ x ∈ List.dropWhile p w, p x = true := fun x hx =>
      h x (List.mem_reverse.mpr hx)
    have hc2 : c ∈ List.takeWhile p w ++ List.dropWhile p w := by
      rw [List.takeWhile_append_dropWhile]; exact hc
    rcases List.mem_append.mp hc2 with h1 | h2
    · exact List.mem_takeWhile_imp h1
    · exact hdw c h2
  · intro h
    unfold pyStrip
    have h1 : List.dropWhile p w = [] := List.dropWhile_eq_nil_iff.mpr h
    rw [h1]
    rfl

theorem pySplitAux_tokens (s : Str) :
    ∀ acc : Str, (∀ c ∈ acc, pyIsSpace c = false) →
      ∀ w ∈ pySplitAux s acc, w ≠ [] ∧ ∀ c ∈ w, pyIsSpace c = false := by
  induction s with
  | nil =>
    intro acc hacc w hw
    cases acc with
    | nil => simp [pySplitAux] at hw
    | cons a as =>
      simp only [pySplitAux] at hw
      rw [if_neg (by simp)] at hw
      rw [List.mem_singleton] at hw
      subst hw
      exact ⟨by simp, fun c hc => hacc c (List.mem_reverse.mp hc)⟩
  | cons ch s ih =>
    intro acc hacc w hw
    simp only [pySplitAux] at hw
    by_cases hch : pyIsSpace ch = true
    · rw [if_pos hch] at hw
      cases acc with
      | nil =>
        rw [if_pos (by simp)] at hw
        exact ih [] (by simp) w hw
      | cons a as =>
        rw [if_neg (by simp)] at hw
        rcases List.mem_cons.mp hw with rfl | hw2
        · exact ⟨by simp, fun c hc => hacc c (List.mem_reverse.mp hc)⟩
        · exact ih [] (by simp) w hw2
    · rw [if_neg hch] at hw
      refine ih (ch :: acc) ?_ w hw
      intro c hc
      rcases List.mem_cons.mp hc with rfl | hc2
      · exact Bool.eq_false_iff.mpr hch
      · exact hacc c hc2

theorem pySplit_tokens (s : Str) :
    ∀ w ∈ pySplit s, w ≠ [] ∧ ∀ c ∈ w, pyIsSpace c = false :=
  pySplitAux_tokens s [] (by simp)

theorem mem_joinWords_head {w : Str} {ws : List Str} {c : Char} (hc : c ∈ w) :
    c ∈ joinWords (w :: ws) := by
  cases ws with
  | nil => simpa [joinWords] using hc
  | cons w2 ws => exact List.mem_append_left _ hc

/-! Lemmas about the decimal printer. -/

theorem natStrAux_eq (fuel : Nat) :
    ∀ n : Nat, n < fuel →
      natStrAux fuel n = (Nat.digits 10 n).reverse.map Nat.digitChar := by
  induction fuel with
  | zero => intro n hn; omega
  | succ fuel ih =>
    intro n hn
    cases n with
    | zero => simp [natStrAux]
    | succ n =>
      have hlt : (n + 1) / 10 < fuel := by
        have h1 : (n + 1) / 10 < n + 1 := Nat.div_lt_self (by omega) (by omega)
        omega
      rw [natStrAux, ih _ hlt, Nat.digits_def' (by norm_num) (Nat.succ_pos n)]
      simp

theorem digitChar_inj (a b : Nat) (ha : a < 10) (hb : b < 10)
    (h : Nat.digitChar a = Nat.digitChar b) : a = b := by
  interval_cases a <;> interval_cases b <;> (revert h; decide)

theorem map_digitChar_inj : ∀ l1 l2 : List Nat, (∀ d ∈ l1, d < 10) →
    (∀ d ∈ l2, d < 10) → l1.map Nat.digitChar = l2.map Nat.digitChar → l1 = l2 := by
  intro l1
  induction l1 with
  | nil =>
    intro l2 _ _ h
    cases l2 with
    | nil => rfl
    | cons b m => simp at h
  | cons a l ih =>
    intro l2 h1 h2 h
    cases l2 with
    | nil => simp at h
    | cons b m =>
      simp only [List.map_cons, List.cons.injEq] at h
      have hab : a = b :=
        digitChar_inj a b (h1 a (by simp)) (h2 b (by simp)) h.1
      subst hab
      rw [ih m (fun d hd => h1 d (by simp [hd])) (fun d hd => h2 d (by simp [hd])) h.2]

theorem natStr_inj (m n : Nat) (h : natStr m = natStr n) : m = n := by
  have key : ∀ k : Nat, k ≠ 0 →
      natStr k = (Nat.digits 10 k).reverse.map Nat.digitChar := by
    intro k hk
    unfold natStr
    rw [if_neg hk]
    exact natStrAux_eq (k + 1) k (by omega)
  have key0 : natStr 0 = ([0] : List Nat).map Nat.digitChar := by decide
  have hd : ∀ k : Nat, ∀ d ∈ (Nat.digits 10 k).reverse, d < 10 := fun k d hdm =>
    Nat.digits_lt_base (by norm_num) (List.mem_reverse.mp hdm)
  by_cases hm : m = 0 <;> by_cases hn : n = 0
  · omega
  · subst hm
    rw [key0, key n hn] at h
    have h2 : ([0] : List Nat) = (Nat.digits 10 n).reverse :=
      map_digitChar_inj _ _ (by simp) (hd n) h
    have h3 : Nat.digits 10 n = [0] := by
      have := congrArg List.reverse h2
      simpa using this.symm
    have h4 := Nat.ofDigits_digits 10 n
    rw [h3] at h4
    simp [Nat.ofDigits] at h4
    omega
  · subst hn
    rw [key0, key m hm] at h
    have h2 : (Nat.digits 10 m).reverse = ([0] : List Nat) :=
      map_digitChar_inj _ _ (hd m) (by simp) h
    have h3 : Nat.digits 10 m = [0] := by
      have := congrArg List.reverse h2
      simpa using this
    have h4 := Nat.ofDigits_digits 10 m
    rw [h3] at h4
    simp [Nat.ofDigits] at h4
    omega
  · rw [key m hm, key n hn] at h
    have h2 : (Nat.digits 10 m).reverse = (Nat.digits 10 n).reverse :=
      map_digitChar_inj _ _ (hd m) (hd n) h
    have h3 : Nat.digits 10 m = Nat.digits 10 n := by
      have := congrArg List.reverse h2
      simpa using this
    have h4 := Nat.ofDigits_digits 10 m
    rw [h3, Nat.ofDigits_digits] at h4
    omega

/-! Lemmas about the chunker. -/

theorem range'_start_lt (L k : Nat) (hk : 0 < k) (i : Nat)
    (hi : i ∈ List.range' 0 ((L + k - 1) / k) k) : i < L := by
  rw [List.mem_range'] at hi
  obtain ⟨j, hj, rfl⟩ := hi
  have hc1 : 1 ≤ (L + k - 1) / k := by omega
  have hL1 : 1 * k ≤ L + k - 1 := (Nat.le_div_iff_mul_le hk).mp hc1
  have h1 : k * j ≤ k * ((L + k - 1) / k - 1) :=
    Nat.mul_le_mul_left k (by omega)
  have h2 : k * ((L + k - 1) / k) = k * ((L + k - 1) / k - 1) + k := by
    conv_lhs => rw [show (L + k - 1) / k = ((L + k - 1) / k - 1) + 1 by omega]
    rw [Nat.mul_succ]
  have h3 : (L + k - 1) / k * k ≤ L + k - 1 := Nat.div_mul_le_self _ _
  rw [Nat.mul_comm ((L + k - 1) / k) k] at h3
  omega

theorem foldl_len {α β : Type} (f : List β → α → List β) :
    ∀ l : List α, (∀ (acc : List β) (i : α), i ∈ l → (f acc i).length = acc.length + 1) →
      ∀ acc : List β, (List.foldl f acc l).length = acc.length + l.length := by
  intro l
  induction l with
  | nil => intro _ acc; simp
  | cons a l ih =>
    intro h acc
    rw [List.foldl_cons, ih (fun acc i hi => h acc i (by simp [hi])) (f acc a),
      h acc a (by simp)]
    simp
    omega

theorem window_not_blank (chunk_size : Nat) (hsz : 0 < chunk_size) (words : List Str)
    (hw : ∀ w ∈ words, w ≠ [] ∧ ∀ c ∈ w, pyIsSpace c = false)
    (i : Nat) (hi : i < words.length) :
    ¬ (pyStrip pyIsSpace (joinWords ((words.drop i).take chunk_size))).isEmpty = true := by
  intro hblank
  rw [List.isEmpty_iff, pyStrip_eq_nil_iff] at hblank
  have hlen : 0 < ((words.drop i).take chunk_size).length := by
    rw [List.length_take, List.length_drop]
    omega
  obtain ⟨w, rest, hwin⟩ := List.exists_cons_of_ne_nil (List.length_pos.mp hlen)
  have hwmem : w ∈ words := by
    have h1 : w ∈ (words.drop i).take chunk_size := by rw [hwin]; simp
    exact List.drop_subset i words (List.take_subset _ _ h1)
  obtain ⟨hne, hchars⟩ := hw w hwmem
  obtain ⟨c, rest2, hc⟩ := List.exists_cons_of_ne_nil hne
  have hcmem : c ∈ joinWords ((words.drop i).take chunk_size) := by
    rw [hwin]
    exact mem_joinWords_head (by rw [hc]; simp)
  have := hblank c hcmem
  rw [hchars c (by rw [hc]; simp)] at this
  exact absurd this (by simp)

theorem emitChunk_length (chunk_size : Nat) (hsz : 0 < chunk_size) (words : List Str)
    (hw : ∀ w ∈ words, w ≠ [] ∧ ∀ c ∈ w, pyIsSpace c = false) (meta : DocMeta)
    (acc : List Chunk) (i : Nat) (hi : i < words.length) :
    (emitChunk chunk_size words meta acc i).length = acc.length + 1 := by
  simp only [emitChunk]
  rw [if_neg (window_not_blank chunk_size hsz words hw i hi)]
  simp

theorem chunk_text_length (chunk_size chunk_overlap : Nat) (text : Str)
    (meta : DocMeta) (h2 : chunk_overlap < chunk_size) :
    (chunk_text chunk_size chunk_overlap text meta).length
      = ((pySplit text).length + (chunk_size - chunk_overlap) - 1)
          / (chunk_size - chunk_overlap) := by
  simp only [chunk_text]
  rw [foldl_len (emitChunk chunk_size (pySplit text) meta) _ ?_ []]
  · simp
  · intro acc i hi
    exact emitChunk_length chunk_size (by omega) (pySplit text) (pySplit_tokens text)
      meta acc i (range'_start_lt (pySplit text).length (chunk_size - chunk_overlap)
        (by omega) i hi)

theorem blankWindowCount_eq_zero (chunk_size chunk_overlap : Nat) (text : Str)
    (h2 : chunk_overlap < chunk_size) :
    blankWindowCount chunk_size chunk_overlap text = 0 := by
  simp only [blankWindowCount, windowsOf, List.length_eq_zero]
  rw [List.filter_eq_nil_iff]
  intro w hw
  rw [List.mem_map] at hw
  obtain ⟨i, hi, rfl⟩ := hw
  exact window_not_blank chunk_size (by omega) (pySplit text) (pySplit_tokens text) i
    (range'_start_lt (pySplit text).length (chunk_size - chunk_overlap) (by omega) i hi)

/-! Lemmas about the relevance scorer. -/

theorem scoreChunk_text (qw ph : List Str) (c : Chunk) :
    (scoreChunk qw ph c).text = c.text := by
  unfold scoreChunk
  split <;> rfl

theorem chunkBaseMatches_congr (qw : List Str) {c c' : Chunk}
    (h : c'.text = c.text) : chunkBaseMatches qw c' = chunkBaseMatches qw c := by
  unfold chunkBaseMatches
  rw [h]

theorem chunkMatches_congr (qw ph : List Str) {c c' : Chunk}
    (h : c'.text = c.text) : chunkMatches qw ph c' = chunkMatches qw ph c := by
  unfold chunkMatches
  rw [h, chunkBaseMatches_congr qw h]

theorem scoreChunk_relevance (qw ph : List Str) (c : Chunk)
    (h : 0 < chunkBaseMatches qw c) :
    (scoreChunk qw ph c).relevance_score
      = some ((chunkMatches qw ph c : ℚ) / (qw.length : ℚ)) := by
  unfold scoreChunk
  rw [if_pos h]

theorem scoreChunk_eq_self (qw ph : List Str) (c : Chunk)
    (h : chunkBaseMatches qw c = 0) : scoreChunk qw ph c = c := by
  unfold scoreChunk
  rw [if_neg (by omega)]

theorem mem_candidateChunks {qw ph : List Str} {kb : KB} {c : Chunk}
    (h : c ∈ candidateChunks qw ph kb) :
    ∃ c0 : Chunk, (∃ p ∈ kb, c0 ∈ p.2.chunks) ∧ 0 < chunkBaseMatches qw c0 ∧
      c = scoreChunk qw ph c0 := by
  unfold candidateChunks at h
  rw [List.mem_flatten] at h
  obtain ⟨l, hl, hcl⟩ := h
  rw [List.mem_map] at hl
  obtain ⟨p, hp, rfl⟩ := hl
  rw [List.mem_map] at hcl
  obtain ⟨c0, hc0, rfl⟩ := hcl
  rw [List.mem_filter, decide_eq_true_eq] at hc0
  exact ⟨c0, ⟨p, hp, hc0.1⟩, hc0.2, rfl⟩

theorem mem_rank {kb : KB} {q : Str} {limit : Nat} {c : Chunk}
    (h : c ∈ (find_relevant_chunks kb q limit).2) :
    ∃ c0 : Chunk, (∃ p ∈ kb, c0 ∈ p.2.chunks) ∧
      0 < chunkBaseMatches (tokensOfQuery q) c0 ∧
      c = scoreChunk (tokensOfQuery q) (phrasesOfQuery q) c0 := by
  unfold find_relevant_chunks at h
  have h2 := List.take_subset limit _ h
  rw [(List.perm_insertionSort _ _).mem_iff] at h2
  exact mem_candidateChunks h2

theorem chunkBaseMatches_le (qw : List Str) (c : Chunk) :
    chunkBaseMatches qw c ≤ qw.length :=
  List.length_filter_le _ _

theorem chunkMatches_le (qw ph : List Str) (c : Chunk) :
    chunkMatches qw ph c ≤ chunkBaseMatches qw c + 2 := by
  simp only [chunkMatches]
  split
  · split <;> omega
  · omega

theorem tokens_ne_nil_of_base_pos {qw : List Str} {c : Chunk}
    (h : 0 < chunkBaseMatches qw c) : 0 < qw.length := by
  have := chunkBaseMatches_le qw c
  omega

theorem map_eq_self {α : Type} (f : α → α) :
    ∀ l : List α, (∀ a ∈ l, f a = a) → l.map f = l := by
  intro l
  induction l with
  | nil => intro _; rfl
  | cons a l ih =>
    intro h
    rw [List.map_cons, h a (by simp), ih (fun x hx => h x (by simp [hx]))]

theorem rescoreKB_eq_self {qw ph : List Str} {kb : KB}
    (h : ∀ p ∈ kb, ∀ c ∈ p.2.chunks, chunkBaseMatches qw c = 0) :
    rescoreKB qw ph kb = kb := by
  unfold rescoreKB
  apply map_eq_self
  intro p hp
  show (p.1, { p.2 with chunks := p.2.chunks.map (scoreChunk qw ph) }) = p
  have hchunks : p.2.chunks.map (scoreChunk qw ph) = p.2.chunks :=
    map_eq_self _ _ (fun c hc => scoreChunk_eq_self qw ph c (h p hp c hc))
  rw [hchunks]

theorem candidateChunks_eq_nil {qw ph : List Str} {kb : KB}
    (h : ∀ p ∈ kb, ∀ c ∈ p.2.chunks, chunkBaseMatches qw c = 0) :
    candidateChunks qw ph kb = [] := by
  unfold candidateChunks
  rw [List.flatten_eq_nil_iff]
  intro l hl
  rw [List.mem_map] at hl
  obtain ⟨p, hp, rfl⟩ := hl
  rw [List.map_eq_nil_iff, List.filter_eq_nil_iff]
  intro c hc
  rw [decide_eq_true_eq]
  have := h p hp c hc
  omega

/-! Lemmas about the knowledge-base state machine and the stats counters. -/

theorem map_congr_fun {α β : Type} (f g : α → β) :
    ∀ l : List α, (∀ a ∈ l, f a = g a) → l.map f = l.map g := by
  intro l
  induction l with
  | nil => intro _; rfl
  | cons a l ih =>
    intro h
    rw [List.map_cons, List.map_cons, h a (by simp),
      ih (fun x hx => h x (by simp [hx]))]

theorem foldCategories_map_preserve (f : Str × DocEntry → Str × DocEntry)
    (hf : ∀ p, (f p).2.meta.category = p.2.meta.category) :
    ∀ (kb : KB) (acc : List Str),
      (kb.map f).foldl
        (fun acc p => if p.2.meta.category ∈ acc then acc else acc ++ [p.2.meta.category]) acc
        = kb.foldl
          (fun acc p => if p.2.meta.category ∈ acc then acc else acc ++ [p.2.meta.category]) acc := by
  intro kb
  induction kb with
  | nil => intro _; rfl
  | cons p kb ih =>
    intro acc
    rw [List.map_cons, List.foldl_cons, List.foldl_cons, hf p]
    exact ih _

theorem computeStats_rescoreKB (qw ph : List Str) (kb : KB) :
    computeStats (rescoreKB qw ph kb) = computeStats kb := by
  unfold computeStats
  congr 1
  · unfold rescoreKB
    exact List.length_map _ _
  · unfold rescoreKB
    rw [List.map_map]
    congr 1
    apply map_congr_fun
    intro p _
    simp
  · unfold foldCategories rescoreKB
    exact foldCategories_map_preserve
      (fun p => (p.1, { p.2 with chunks := p.2.chunks.map (scoreChunk qw ph) }))
      (fun p => rfl) kb []

theorem keysBounded_rescoreKB (qw ph : List Str) {kb : KB} (h : KeysBounded kb) :
    KeysBounded (rescoreKB qw ph kb) := by
  intro p hp
  unfold rescoreKB at hp
  rw [List.mem_map] at hp
  obtain ⟨p0, hp0, rfl⟩ := hp
  rcases h p0 hp0 with h1 | ⟨i, hi, h2⟩
  · left; exact h1
  · right
    refine ⟨i, ?_, h2⟩
    unfold rescoreKB
    rw [List.length_map]
    exact hi

theorem chat_kb (kb : KB) (gen : Option (Except Str Str)) (q : Str) :
    (chat_with_agent kb gen q).1 = kb ∨
      ∃ qw ph, (chat_with_agent kb gen q).1 = rescoreKB qw ph kb := by
  simp only [chat_with_agent]
  repeat' split
  all_goals first
    | exact Or.inl rfl
    | exact Or.inr ⟨_, _, rfl⟩

theorem computeStats_append (kb : KB) (k : Str) (e : DocEntry) :
    computeStats (kb ++ [(k, e)]) = ⟨(computeStats kb).total_documents + 1,
      (computeStats kb).total_chunks + e.chunks.length,
      if e.meta.category ∈ (computeStats kb).categories then (computeStats kb).categories
      else (computeStats kb).categories ++ [e.meta.category]⟩ := by
  unfold computeStats foldCategories
  congr 1
  · simp
  · simp
  · rw [List.foldl_append]
    rfl

theorem docId_ne_manual (i : Nat) :
    ('d' :: 'o' :: 'c' :: '_' :: natStr i) ≠ "safety_manual".data := by
  have hm : "safety_manual".data
      = 's' :: 'a' :: 'f' :: 'e' :: 't' :: 'y' :: '_' :: 'm' :: 'a' :: 'n' :: 'u' :: 'a' :: 'l' :: [] := rfl
  intro h
  rw [hm, List.cons.injEq] at h
  exact absurd h.1 (by decide)

theorem upload_id_fresh {kb : KB} (hkeys : KeysBounded kb) :
    kb.any (fun p => p.1 = ('d' :: 'o' :: 'c' :: '_' :: natStr kb.length)) = false := by
  rw [List.any_eq_false]
  intro p hp
  rw [decide_eq_true_eq]
  intro h
  rcases hkeys p hp with h1 | ⟨i, hi, h2⟩
  · exact docId_ne_manual kb.length (h.symm.trans h1)
  · have h3 : natStr i = natStr kb.length := by
      have h4 := h2.symm.trans h
      simpa using h4
    have := natStr_inj i kb.length h3
    omega

theorem dictInsert_of_fresh {kb : KB} {k : Str}
    (h : kb.any (fun p => p.1 = k) = false) (v : DocEntry) :
    dictInsert kb k v = kb ++ [(k, v)] := by
  unfold dictInsert
  rw [h]
  simp

theorem dictInsert_idem (kb : KB) (k : Str) (v : DocEntry) :
    dictInsert (dictInsert kb k v) k v = dictInsert kb k v := by
  unfold dictInsert
  by_cases h : kb.any (fun p => p.1 = k) = true
  · rw [if_pos h]
    have h2 : ((kb.map (fun p => if p.1 = k then (k, v) else p)).any
        (fun p => p.1 = k)) = true := by
      rw [List.any_eq_true] at h ⊢
      obtain ⟨p, hp, hpk⟩ := h
      rw [decide_eq_true_eq] at hpk
      refine ⟨if p.1 = k then (k, v) else p, List.mem_map_of_mem _ hp, ?_⟩
      rw [if_pos hpk]
      simp
    rw [if_pos h2, List.map_map]
    apply map_congr_fun
    intro p _
    by_cases hp : p.1 = k
    · simp only [Function.comp_apply]
      rw [if_pos hp]
      simp
    · simp only [Function.comp_apply]
      rw [if_neg hp, if_neg hp]
  · rw [if_neg h]
    have hfalse : kb.any (fun p => p.1 = k) = false := by
      rw [← Bool.not_eq_true]
      exact h
    have hall := List.any_eq_false.mp hfalse
    have h2 : ((kb ++ [(k, v)]).any (fun p => p.1 = k)) = true := by
      rw [List.any_eq_true]
      exact ⟨(k, v), by simp, by simp⟩
    rw [if_pos h2, List.map_append]
    congr 1
    · apply map_eq_self
      intro p hp
      have hpk : ¬ p.1 = k := by
        have := hall p hp
        rw [decide_eq_true_eq] at this
        exact this
      rw [if_neg hpk]
    · simp

theorem reachable_invariant : ∀ s : ServerState, Reachable s →
    s.stats = computeStats s.kb ∧ KeysBounded s.kb := by
  intro s h
  induction h with
  | boot =>
    refine ⟨rfl, ?_⟩
    intro p hp
    simp [initState] at hp
  | load d json_size =>
    constructor
    · simp [load_safety_manual, initState, dictInsert, computeStats, foldCategories]
    · intro p hp
      simp only [load_safety_manual, initState] at hp
      rw [dictInsert_of_fresh (by rfl)] at hp
      rw [List.nil_append, List.mem_singleton] at hp
      subst hp
      left
      rfl
  | @upload s filename text category file_size hs ih =>
    obtain ⟨ih1, ih2⟩ := ih
    have fresh := upload_id_fresh ih2
    constructor
    · simp only [upload_document]
      rw [dictInsert_of_fresh fresh, computeStats_append, ih1]
    · simp only [upload_document]
      rw [dictInsert_of_fresh fresh]
      intro p hp
      rw [List.mem_append] at hp
      rcases hp with hp | hp
      · rcases ih2 p hp with h1 | ⟨i, hi, h2⟩
        · left; exact h1
        · right
          refine ⟨i, ?_, h2⟩
          rw [List.length_append]
          omega
      · rw [List.mem_singleton] at hp
        subst hp
        right
        refine ⟨s.kb.length, ?_, rfl⟩
        rw [List.length_append]
        simp
  | @chat s gen q hs ih =>
    obtain ⟨ih1, ih2⟩ := ih
    rcases chat_kb _ gen q with hk | ⟨qw, ph, hk⟩
    · exact ⟨by rw [hk]; exact ih1, by rw [hk]; exact ih2⟩
    · constructor
      · rw [hk, computeStats_rescoreKB]
        exact ih1
      · rw [hk]
        exact keysBounded_rescoreKB qw ph ih2

theorem simplePreamble_ne_nil : simplePreamble ≠ [] := by decide

theorem eraseScores_chunks (qw ph : List Str) :
    ∀ l : List Chunk,
      (l.map (scoreChunk qw ph)).map (fun c => { c with relevance_score := none })
        = l.map (fun c => { c with relevance_score := none }) := by
  intro l
  induction l with
  | nil => rfl
  | cons c l ih =>
    simp only [List.map_cons, ih]
    rw [List.cons.injEq]
    refine ⟨?_, rfl⟩
    unfold scoreChunk
    split <;> rfl

/-! The claims. -/

/-- C8: for chunker parameters with 0 < overlap < windowSize (the source
uses 1000/200), the number of emitted chunks equals
⌈wordCount / (windowSize - overlap)⌉ minus the number of windows that are
blank after trimming, and empty or all-whitespace input yields an empty
chunk sequence as a valid non-error outcome. -/
theorem C8_chunk_count (chunk_size chunk_overlap : Nat) (text : Str) (meta : DocMeta)
    (h1 : 0 < chunk_overlap) (h2 : chunk_overlap < chunk_size) :
    (chunk_text chunk_size chunk_overlap text meta).length
      = ((pySplit text).length + (chunk_size - chunk_overlap) - 1)
          / (chunk_size - chunk_overlap)
        - blankWindowCount chunk_size chunk_overlap text ∧
    (pySplit text = [] → chunk_text chunk_size chunk_overlap text meta = []) := by
  constructor
  · rw [blankWindowCount_eq_zero chunk_size chunk_overlap text h2,
      chunk_text_length chunk_size chunk_overlap text meta h2, Nat.sub_zero]
  · intro h
    have h0 : (0 + (chunk_size - chunk_overlap) - 1) / (chunk_size - chunk_overlap) = 0 :=
      Nat.div_eq_of_lt (by omega)
    simp only [chunk_text, h, List.length_nil]
    rw [h0]
    rfl

/-- Witness for C8 at the source's parameters 1000 and 200. -/
theorem C8_chunk_count_witness :
    0 < 200 ∧ 200 < 1000 ∧
    (chunk_text 1000 200 ("hard hats required".data) metaX).length
      = ((pySplit ("hard hats required".data)).length + (1000 - 200) - 1) / (1000 - 200)
        - blankWindowCount 1000 200 ("hard hats required".data) ∧
    chunk_text 1000 200 ([] : Str) metaX = [] :=
  ⟨by decide, by decide,
   (C8_chunk_count 1000 200 ("hard hats required".data) metaX (by decide) (by decide)).1,
   (C8_chunk_count 1000 200 [] metaX (by decide) (by decide)).2 (by decide)⟩

/-- C3: at every reachable server state the stats dict equals a
recomputation by folding over the live knowledge-base map (documents,
chunks and categories never drift), and re-ingesting under the one
document identifier that can repeat ("safety_manual") is idempotent:
it replaces the prior chunk set and yields exactly the stats of a fresh
ingest, with no double counting. -/
theorem C3_stats_consistent (s : ServerState) (h : Reachable s) :
    s.stats = computeStats s.kb ∧
    ∀ (d : ManualData) (json_size : Nat),
      load_safety_manual (load_safety_manual s d json_size) d json_size
        = load_safety_manual s d json_size := by
  refine ⟨(reachable_invariant s h).1, ?_⟩
  intro d json_size
  simp only [load_safety_manual]
  rw [dictInsert_idem]

/-- Witness for C3 at a concrete reachable state: bulk load, then one
upload. -/
theorem C3_stats_consistent_witness :
    (upload_document (load_safety_manual initState manualX 5) ("f.txt".data)
        ("hello world".data) ("general".data) 11).stats
      = computeStats (upload_document (load_safety_manual initState manualX 5)
          ("f.txt".data) ("hello world".data) ("general".data) 11).kb :=
  (C3_stats_consistent _
    (Reachable.upload ("f.txt".data) ("hello world".data) ("general".data) 11
      (Reachable.load manualX 5))).1

/-- C9: an empty or whitespace-only query is answered with the fixed
"Please provide a question." response (confidence 0, no sources) without
touching the knowledge base or the scorer, and that response differs from
the "not found" response used when tokens match nothing. -/
theorem C9_empty_query (kb : KB) (gen : Option (Except Str Str)) (q : Str)
    (h : pyStrip pyIsSpace q = []) :
    chat_with_agent kb gen q = (kb, pleaseProvideResponse) ∧
    pleaseProvideResponse.response ≠ notFoundResponse.response := by
  constructor
  · simp only [chat_with_agent]
    rw [if_pos (by rw [h]; rfl)]
  · decide

/-- Witness for C9 on a whitespace query. -/
theorem C9_empty_query_witness :
    chat_with_agent kbHello none ("  ".data) = (kbHello, pleaseProvideResponse) :=
  (C9_empty_query kbHello none ("  ".data) (by decide)).1

/-- C7 (counterexample): with an empty knowledge base, a non-empty query
trivially matches no chunk anywhere in the corpus, yet the response is the
fixed "no manual loaded" message, not the claimed fixed "not found"
message (confidence and sources do match the claim). -/
theorem C7_not_found_counterexample :
    pyStrip pyIsSpace ("xyz".data) ≠ [] ∧
    (chat_with_agent [] none ("xyz".data)).2.response ≠ notFoundResponse.response ∧
    (chat_with_agent [] none ("xyz".data)).2 = noManualResponse := by
  refine ⟨by decide, by decide, by decide⟩

/-- C7 (amended): when the knowledge base holds at least one document and
a non-empty query's tokens match no stored chunk, the chat endpoint
returns the fixed "not found" response (confidence 0.0, empty sources)
terminally: the result is the same for every generator configuration, and
the knowledge base is left unchanged. -/
theorem C7_not_found_amended (kb : KB) (gen : Option (Except Str Str)) (q : Str)
    (hkb : kb ≠ [])
    (hq : pyStrip pyIsSpace q ≠ [])
    (hmatch : ∀ p ∈ kb, ∀ c ∈ p.2.chunks,
      chunkBaseMatches (tokensOfQuery (pyStrip pyIsSpace q)) c = 0) :
    chat_with_agent kb gen q = (kb, notFoundResponse) := by
  have hcand : candidateChunks (tokensOfQuery (pyStrip pyIsSpace q))
      (phrasesOfQuery (pyStrip pyIsSpace q)) kb = [] := candidateChunks_eq_nil hmatch
  have hfind2 : (find_relevant_chunks kb (pyStrip pyIsSpace q) 5).2 = [] := by
    simp only [find_relevant_chunks]
    rw [hcand]
    rfl
  have hfind1 : (find_relevant_chunks kb (pyStrip pyIsSpace q) 5).1 = kb :=
    rescoreKB_eq_self hmatch
  simp only [chat_with_agent]
  rw [if_neg (by simpa [List.isEmpty_iff] using hq),
    if_neg (by simpa [List.isEmpty_iff] using hkb), hfind2, hfind1]
  rfl

/-- Witness for C7 (amended) on a one-document corpus and a query whose
only token occurs nowhere. -/
theorem C7_not_found_amended_witness :
    chat_with_agent kbHello (some (Except.ok ("ok".data))) ("zebra".data)
      = (kbHello, notFoundResponse) :=
  C7_not_found_amended kbHello (some (Except.ok ("ok".data))) ("zebra".data)
    (by decide) (by decide) (by decide)

/-- C6: when the configured generator raises, the synthesizer falls back
to the extractive strategy instead of propagating the error: for a
non-empty ranked list whose top chunk carries score s, the result is the
extractive response, which is non-empty and whose confidence is s clamped
to the closed interval from 0.5 to 0.8. -/
theorem C6_generator_fallback (e : Str) (chunks : List Chunk) (c0 : Chunk) (s : ℚ)
    (h0 : chunks.head? = some c0) (hs : c0.relevance_score = some s) :
    generate_ai_response (Except.error e) chunks = generate_simple_response chunks ∧
    ∃ r : ChatResponse, generate_simple_response chunks = some r ∧
      r.response ≠ [] ∧ r.confidence = min (4 / 5) (max (1 / 2) s) ∧
      1 / 2 ≤ r.confidence ∧ r.confidence ≤ 4 / 5 := by
  refine ⟨rfl, ?_⟩
  cases chunks with
  | nil => simp at h0
  | cons c1 t =>
    rw [List.head?_cons, Option.some.injEq] at h0
    subst h0
    simp only [generate_simple_response, List.take_succ_cons, List.head?_cons]
    refine ⟨_, rfl, ?_, ?_, ?_, ?_⟩
    · split
      · intro hcontra
        exact simplePreamble_ne_nil (List.append_eq_nil.mp
          (List.append_eq_nil.mp hcontra).1).1
      · intro hcontra
        exact simplePreamble_ne_nil (List.append_eq_nil.mp hcontra).1
    · rw [hs, Option.getD_some]
    · rw [hs, Option.getD_some]
      exact le_min (by norm_num) (le_max_left _ _)
    · rw [hs, Option.getD_some]
      exact min_le_left _ _

/-- Witness for C6 on a concrete one-chunk ranked list with score 3/4. -/
theorem C6_generator_fallback_witness :
    generate_ai_response (Except.error ("timeout".data)) [chunkScored]
      = generate_simple_response [chunkScored] ∧
    ∃ r : ChatResponse, generate_simple_response [chunkScored] = some r ∧
      r.response ≠ [] ∧ r.confidence = min (4 / 5) (max (1 / 2) (3 / 4)) ∧
      1 / 2 ≤ r.confidence ∧ r.confidence ≤ 4 / 5 :=
  C6_generator_fallback ("timeout".data) [chunkScored] chunkScored (3 / 4) rfl rfl

/-- C1 (counterexample): the code strips the punctuation set from BOTH
ends of each token, not only the trailing end, and it KEEPS tokens that
are empty after stripping; an empty token is a substring of every chunk
text, so a punctuation-only query matches every chunk instead of yielding
an empty result. -/
theorem C1_normalization_counterexample :
    tokensOfQuery ("?hi".data) ≠ specTokensOfQuery ("?hi".data) ∧
    [] ∈ tokensOfQuery ("!!".data) ∧
    (find_relevant_chunks kbHello ("!!".data) 5).2 ≠ [] := by
  refine ⟨by decide, by decide, by decide⟩

/-- C1 (amended): the token list is the lowercased whitespace-split query
with the characters . , ! ? stripped from both ends of each token; tokens
that are empty after stripping are kept, and each empty token counts as a
match for every chunk; only a query whose whitespace split is already
empty (empty or all-whitespace) makes the scorer return an empty
sequence. -/
theorem C1_normalization_amended (kb : KB) (q : Str) (limit : Nat) :
    tokensOfQuery q = (pySplit (strLower q)).map (pyStrip isPunct) ∧
    (pySplit (strLower q) = [] → (find_relevant_chunks kb q limit).2 = []) ∧
    ([] ∈ tokensOfQuery q → ∀ c : Chunk, 0 < chunkBaseMatches (tokensOfQuery q) c) := by
  refine ⟨rfl, ?_, ?_⟩
  · intro h
    have htok : tokensOfQuery q = [] := by
      unfold tokensOfQuery
      rw [h]
      rfl
    have hcand : candidateChunks (tokensOfQuery q) (phrasesOfQuery q) kb = [] :=
      candidateChunks_eq_nil (fun p _ c _ => by rw [htok]; rfl)
    simp only [find_relevant_chunks]
    rw [hcand]
    exact List.take_nil
  · intro h c
    have hmem : [] ∈ (tokensOfQuery q).filter (fun w => pyIn w (strLower c.text)) :=
      List.mem_filter.mpr ⟨h, pyIn_nil _⟩
    unfold chunkBaseMatches
    exact List.length_pos.mpr (List.ne_nil_of_mem hmem)

/-- Witness for C1 (amended): a whitespace query yields no ranked chunks,
and the empty token of a punctuation-only query matches a concrete chunk. -/
theorem C1_normalization_amended_witness :
    (find_relevant_chunks kbHello ("   ".data) 7).2 = [] ∧
    0 < chunkBaseMatches (tokensOfQuery ("!!".data)) chunkHello :=
  ⟨(C1_normalization_amended kbHello ("   ".data) 7).2.1 (by decide),
   (C1_normalization_amended kbHello ("!!".data) 7).2.2 (by decide) chunkHello⟩

/-- C2 (counterexample): the scoring pass mutates the stored knowledge
base in place, persisting a relevance_score on a stored chunk dict. -/
theorem C2_rank_readonly_counterexample :
    (find_relevant_chunks kbHello ("hello".data) 5).1 ≠ kbHello ∧
    ∃ p ∈ (find_relevant_chunks kbHello ("hello".data) 5).1,
      ∃ c ∈ p.2.chunks, c.relevance_score ≠ none := by
  refine ⟨by decide, by decide⟩

/-- C2 (amended): the scoring pass changes nothing in the knowledge base
except the relevance_score fields of the stored chunks (which it does
persist, contrary to the claim): erasing the score fields recovers the
original knowledge base exactly, so identifiers, texts, metadata and
document structure are unchanged by ranking. -/
theorem C2_rank_frame_amended (kb : KB) (q : Str) (limit : Nat) :
    eraseScores (find_relevant_chunks kb q limit).1 = eraseScores kb := by
  show eraseScores (rescoreKB (tokensOfQuery q) (phrasesOfQuery q) kb) = eraseScores kb
  unfold eraseScores rescoreKB
  rw [List.map_map]
  apply map_congr_fun
  intro p _
  simp only [Function.comp_apply]
  rw [eraseScores_chunks (tokensOfQuery q) (phrasesOfQuery q) p.2.chunks]

/-- C5: whenever some whitespace-delimited segment of the lowercased
query occurs verbatim in the lowercased chunk text, the chunk also has at
least one base token match (the stripped token is contained in the
segment), so exactly 2 is added once to the match count before the score
is computed — the score becomes (base + 2) / tokenCount. -/
theorem C5_phrase_bonus (q : Str) (c : Chunk)
    (h : (phrasesOfQuery q).any (fun p => pyIn p (strLower c.text)) = true) :
    chunkMatches (tokensOfQuery q) (phrasesOfQuery q) c
      = chunkBaseMatches (tokensOfQuery q) c + 2 ∧
    (scoreChunk (tokensOfQuery q) (phrasesOfQuery q) c).relevance_score
      = some (((chunkBaseMatches (tokensOfQuery q) c + 2 : Nat) : ℚ)
          / ((tokensOfQuery q).length : ℚ)) := by
  have hbase : 0 < chunkBaseMatches (tokensOfQuery q) c := by
    rw [List.any_eq_true] at h
    obtain ⟨p, hp, hpin⟩ := h
    have hw : pyStrip isPunct p ∈ tokensOfQuery q :=
      List.mem_map_of_mem (pyStrip isPunct) hp
    have hin : pyIn (pyStrip isPunct p) (strLower c.text) = true :=
      pyIn_pyStrip isPunct hpin
    unfold chunkBaseMatches
    exact List.length_pos.mpr (List.ne_nil_of_mem (List.mem_filter.mpr ⟨hw, hin⟩))
  have hmatches : chunkMatches (tokensOfQuery q) (phrasesOfQuery q) c
      = chunkBaseMatches (tokensOfQuery q) c + 2 := by
    simp only [chunkMatches]
    rw [if_pos hbase, if_pos h]
  refine ⟨hmatches, ?_⟩
  rw [scoreChunk_relevance _ _ _ hbase, hmatches]

/-- Witness for C5: the query "hard hats" against a chunk containing that
exact phrase receives the bonus. -/
theorem C5_phrase_bonus_witness :
    ((phrasesOfQuery ("hard hats".data)).any
        (fun p => pyIn p (strLower chunkHard.text)) = true) ∧
    chunkMatches (tokensOfQuery ("hard hats".data)) (phrasesOfQuery ("hard hats".data))
        chunkHard
      = chunkBaseMatches (tokensOfQuery ("hard hats".data)) chunkHard + 2 :=
  ⟨by decide, (C5_phrase_bonus ("hard hats".data) chunkHard (by decide)).1⟩

/-- C4: for a query with at least one token, the ranked sequence has
length at most the limit (the source default is 5), contains only chunks
with at least one token match, attaches to each returned chunk the score
matches / tokenCount (which is non-negative), and its scores are
monotonically non-increasing in sequence order. -/
theorem C4_rank_postcondition (kb : KB) (q : Str) (limit : Nat)
    (h : tokensOfQuery q ≠ []) :
    (find_relevant_chunks kb q limit).2.length ≤ limit ∧
    (∀ c ∈ (find_relevant_chunks kb q limit).2,
      0 < chunkBaseMatches (tokensOfQuery q) c ∧
      c.relevance_score
        = some ((chunkMatches (tokensOfQuery q) (phrasesOfQuery q) c : ℚ)
            / ((tokensOfQuery q).length : ℚ)) ∧
      0 ≤ c.relevance_score.getD 0) ∧
    (find_relevant_chunks kb q limit).2.Pairwise
      (fun a b => b.relevance_score.getD 0 ≤ a.relevance_score.getD 0) := by
  refine ⟨?_, ?_, ?_⟩
  · show (List.take limit (List.insertionSort _ _)).length ≤ limit
    exact List.length_take_le _ _
  · intro c hc
    obtain ⟨c0, _, hpos, rfl⟩ := mem_rank hc
    have htext : (scoreChunk (tokensOfQuery q) (phrasesOfQuery q) c0).text = c0.text :=
      scoreChunk_text _ _ _
    refine ⟨?_, ?_, ?_⟩
    · rw [chunkBaseMatches_congr _ htext]
      exact hpos
    · rw [scoreChunk_relevance _ _ _ hpos, chunkMatches_congr _ _ htext]
    · rw [scoreChunk_relevance _ _ _ hpos, Option.getD_some]
      exact div_nonneg (Nat.cast_nonneg _) (Nat.cast_nonneg _)
  · have hsorted : (List.insertionSort
        (fun a b : Chunk => b.relevance_score.getD 0 ≤ a.relevance_score.getD 0)
        (candidateChunks (tokensOfQuery q) (phrasesOfQuery q) kb)).Pairwise
        (fun a b => b.relevance_score.getD 0 ≤ a.relevance_score.getD 0) := by
      haveI ht : IsTotal Chunk
          (fun a b : Chunk => b.relevance_score.getD 0 ≤ a.relevance_score.getD 0) :=
        ⟨fun a b => le_total _ _⟩
      haveI htr : IsTrans Chunk
          (fun a b : Chunk => b.relevance_score.getD 0 ≤ a.relevance_score.getD 0) :=
        ⟨fun a b c h1 h2 => le_trans h2 h1⟩
      exact List.sorted_insertionSort _ _
    exact List.Pairwise.sublist (List.take_sublist _ _) hsorted

/-- Witness for C4 on a concrete one-chunk corpus. -/
theorem C4_rank_postcondition_witness :
    tokensOfQuery ("hello".data) ≠ [] ∧
    (find_relevant_chunks kbHello ("hello".data) 5).2.length ≤ 5 :=
  ⟨by decide, (C4_rank_postcondition kbHello ("hello".data) 5 (by decide)).1⟩

/-- C10: relevance scores are not bounded by 1: a single-token query
whose text occurs in a chunk reaches score 3 exactly (base match 1 plus
bonus 2, divided by 1); and every ranked chunk's score is at most
(tokenCount + 2) / tokenCount, hence at most 3. -/
theorem C10_score_bound :
    (∃ c ∈ (find_relevant_chunks kbHello ("hello".data) 5).2,
      c.relevance_score = some 3 ∧ (1 : ℚ) < 3) ∧
    (∀ (kb : KB) (q : Str) (limit : Nat),
      ∀ c ∈ (find_relevant_chunks kb q limit).2, ∀ s : ℚ, c.relevance_score = some s →
        s ≤ (((tokensOfQuery q).length : ℚ) + 2) / ((tokensOfQuery q).length : ℚ) ∧
        s ≤ 3) := by
  constructor
  · have hfind : (find_relevant_chunks kbHello ("hello".data) 5).2
        = [scoreChunk (tokensOfQuery ("hello".data)) (phrasesOfQuery ("hello".data))
            chunkHello] := rfl
    refine ⟨scoreChunk (tokensOfQuery ("hello".data)) (phrasesOfQuery ("hello".data))
      chunkHello, ?_, ?_, by norm_num⟩
    · rw [hfind]
      exact List.mem_singleton_self _
    · rw [scoreChunk_relevance _ _ _ (by decide)]
      have hm : chunkMatches (tokensOfQuery ("hello".data))
          (phrasesOfQuery ("hello".data)) chunkHello = 3 := by decide
      have hl : (tokensOfQuery ("hello".data)).length = 1 := by decide
      rw [hm, hl]
      congr 1
      norm_num
  · intro kb q limit c hc s hs
    obtain ⟨c0, _, hpos, rfl⟩ := mem_rank hc
    rw [scoreChunk_relevance _ _ _ hpos, Option.some.injEq] at hs
    have hmle : chunkMatches (tokensOfQuery q) (phrasesOfQuery q) c0
        ≤ (tokensOfQuery q).length + 2 := by
      have h1 := chunkMatches_le (tokensOfQuery q) (phrasesOfQuery q) c0
      have h2 := chunkBaseMatches_le (tokensOfQuery q) c0
      omega
    have htc : 0 < (tokensOfQuery q).length := tokens_ne_nil_of_base_pos hpos
    have htcq : (0 : ℚ) < ((tokensOfQuery q).length : ℚ) := by exact_mod_cast htc
    have hb1 : (chunkMatches (tokensOfQuery q) (phrasesOfQuery q) c0 : ℚ)
        / ((tokensOfQuery q).length : ℚ)
        ≤ (((tokensOfQuery q).length : ℚ) + 2) / ((tokensOfQuery q).length : ℚ) :=
      (div_le_div_right htcq).mpr (by exact_mod_cast hmle)
    have hb2 : (((tokensOfQuery q).length : ℚ) + 2) / ((tokensOfQuery q).length : ℚ)
        ≤ 3 := by
      rw [div_le_iff htcq]
      have h1 : (1 : ℚ) ≤ ((tokensOfQuery q).length : ℚ) := by exact_mod_cast htc
      linarith
    rw [← hs]
    exact ⟨hb1, le_trans hb1 hb2⟩

/-- Witness for C10: the universal bound applied at the concrete
score-3 chunk. -/
theorem C10_score_bound_witness :
    (scoreChunk (tokensOfQuery ("hello".data)) (phrasesOfQuery ("hello".data))
        chunkHello).relevance_score
      = some ((chunkMatches (tokensOfQuery ("hello".data))
          (phrasesOfQuery ("hello".data)) chunkHello : ℚ)
        / ((tokensOfQuery ("hello".data)).length : ℚ)) ∧
    ((chunkMatches (tokensOfQuery ("hello".data))
          (phrasesOfQuery ("hello".data)) chunkHello : ℚ)
        / ((tokensOfQuery ("hello".data)).length : ℚ)
      ≤ (((tokensOfQuery ("hello".data)).length : ℚ) + 2)
          / ((tokensOfQuery ("hello".data)).length : ℚ) ∧
     (chunkMatches (tokensOfQuery ("hello".data))
          (phrasesOfQuery ("hello".data)) chunkHello : ℚ)
        / ((tokensOfQuery ("hello".data)).length : ℚ) ≤ 3) :=
  ⟨scoreChunk_relevance _ _ _ (by decide),
   C10_score_bound.2 kbHello ("hello".data) 5
     (scoreChunk (tokensOfQuery ("hello".data)) (phrasesOfQuery ("hello".data)) chunkHello)
     (List.mem_singleton_self _) _
     (scoreChunk_relevance _ _ _ (by decide))⟩

end SafetyAgent

